import Mathlib

/-!
Verification of the `mshed` modal text editor (src/main.rs).

The editor state machine is embedded shallowly: strings are lists of
characters, the file system is a partial map from paths to contents, and
the externally observable file writes / process exits produced by the
command interpreter are collected as a list of effects.  Terminal
dimensions, read by the Rust code via `terminal_size()`, are threaded as
explicit parameters `w` (width) and `h` (height).
-/

namespace Mshed

/-- The three editor modes (Rust `enum Mode`). -/
inductive Mode where
  | normal
  | insert
  | command
deriving DecidableEq, Repr

/-- Key events the handlers distinguish (termion `Key`); every other key
falls into the wildcard no-op arms of the Rust `match`es. -/
inductive Key where
  | char (c : Char)
  | esc
  | backspace
  | otherKey
deriving DecidableEq, Repr

/-- Externally observable effects of the command interpreter: a file write
request (the Rust code opens the path and writes the joined buffer), and
process termination (`process::exit(0)`). -/
inductive Effect where
  | write (path : List Char) (content : List Char)
  | quit
deriving DecidableEq, Repr

/-- The editor state (Rust `struct Editor`). -/
structure Editor where
  mode : Mode
  cursor_x : Nat
  cursor_y : Nat
  buffer : List (List Char)
  command_buffer : List Char
  filename : Option (List Char)
  scroll_x : Nat
  scroll_y : Nat
deriving DecidableEq, Repr

/-- The file system seen by `fs::read_to_string`: `none` models a missing
or unreadable file. -/
def FileSys : Type := List Char → Option (List Char)

/-- `Editor::new()`. -/
def Editor.init : Editor :=
  { mode := Mode.normal
    cursor_x := 0
    cursor_y := 0
    buffer := [[]]
    command_buffer := []
    filename := none
    scroll_x := 0
    scroll_y := 0 }

/-- Rust whitespace test used by `str::trim` (restricted to the ASCII
whitespace characters that can actually occur here). -/
def wsb (c : Char) : Bool :=
  c = ' ' || c = '\t' || c = '\n' || c = '\r'

/-- Trim trailing whitespace. -/
def rtrim (l : List Char) : List Char :=
  (l.reverse.dropWhile wsb).reverse

/-- Rust `str::trim`: drop leading and trailing whitespace. -/
def trim (l : List Char) : List Char :=
  rtrim (l.dropWhile wsb)

/-- Split a character list at every newline character, producing one
segment per line terminator plus a final (possibly empty) segment. -/
def splitNl : List Char → List (List Char)
  | [] => [[]]
  | c :: cs =>
    if c = '\n' then [] :: splitNl cs
    else List.modifyHead (fun l => c :: l) (splitNl cs)

/-- Strip one trailing carriage return (the `\r` of a `\r\n` terminator),
as Rust `str::lines` does on each newline-terminated segment. -/
def stripCR (l : List Char) : List Char :=
  if l.getLast? = some '\r' then l.dropLast else l

/-- The contribution of the final, unterminated segment of `str::lines`:
it is a line only when non-empty. -/
def lastPart : Option (List Char) → List (List Char)
  | some [] => []
  | some l => [l]
  | none => []

/-- Rust `str::lines`: split at `\n`, strip a `\r` preceding each `\n`,
and drop a final empty segment. -/
def rustLines (s : List Char) : List (List Char) :=
  (splitNl s).dropLast.map stripCR ++ lastPart (splitNl s).getLast?

/-- The bytes written by `save_file`: lines joined by single newlines,
with no newline after the last line (mirrors the `i < len - 1` loop). -/
def to_text : List (List Char) → List Char
  | [] => []
  | [l] => l
  | l :: ls => l ++ '\n' :: to_text ls

/-- `Vec::insert` / `String::insert` at a valid index: splice `a` in ahead
of position `n`. -/
def insertIdxAt (l : List α) (n : Nat) (a : α) : List α :=
  l.take n ++ a :: l.drop n

/-- `Editor::display_message`. -/
def display_message (e : Editor) (message : List Char) : Editor :=
  { e with command_buffer := message }

/-- The error message issued by `save_file` when no filename is set. -/
def noFileMsg : List Char := "Error: no file to write".data

/-- `Editor::load_file`. -/
def load_file (fs : FileSys) (filename : List Char) (e : Editor) : Editor :=
  match fs filename with
  | some contents =>
    { e with buffer := rustLines contents, filename := some filename }
  | none =>
    { e with buffer := [[]], filename := some filename }

/-- `Editor::save_file`: with a filename, emit a write request of the
joined buffer; without one, set the status text to the error message. -/
def save_file (e : Editor) : Editor × List Effect :=
  match e.filename with
  | some f => (e, [Effect.write f (to_text e.buffer)])
  | none => (display_message e noFileMsg, [])

/-- `Editor::execute_command`: dispatch on the accumulated command string.
The literal arms `q`/`w`/`wq` compare against the trimmed string, while
the `w <path>` and `e <path>` guards test a prefix of the raw string,
exactly as in the Rust `match`. -/
def execute_command (fs : FileSys) (e : Editor) : Editor × List Effect :=
  let command := e.command_buffer
  if trim command = ['q'] then (e, [Effect.quit])
  else if List.isPrefixOf ['w', ' '] command then
    let e1 := { e with filename := some (trim (command.drop 2)) }
    let r := save_file e1
    ({ r.1 with mode := Mode.normal }, r.2)
  else if trim command = ['w'] then
    let r := save_file e
    ({ r.1 with mode := Mode.normal }, r.2)
  else if trim command = ['w', 'q'] then
    let r := save_file e
    (r.1, r.2 ++ [Effect.quit])
  else if List.isPrefixOf ['e', ' '] command then
    let filename := trim (command.drop 2)
    ({ load_file fs filename e with mode := Mode.normal }, [])
  else ({ e with mode := Mode.normal }, [])

/-- `Editor::handle_normal_mode` (`w` = terminal width, `h` = height). -/
def handle_normal_mode (w h : Nat) (e : Editor) (k : Key) : Editor :=
  match k with
  | Key.char c =>
    if c = 'i' then { e with mode := Mode.insert }
    else if c = ':' then { e with mode := Mode.command, command_buffer := [] }
    else if c = 'h' then
      if e.cursor_x > 0 then { e with cursor_x := e.cursor_x - 1 }
      else if e.scroll_x > 0 then { e with scroll_x := e.scroll_x - 1 }
      else e
    else if c = 'l' then
      if e.cursor_x < (e.buffer.getD e.cursor_y []).length then
        { e with cursor_x := e.cursor_x + 1 }
      else if e.cursor_x ≥ w then { e with scroll_x := e.scroll_x + 1 }
      else e
    else if c = 'k' then
      if e.cursor_y > e.scroll_y then
        let y := e.cursor_y - 1
        { e with cursor_y := y,
                 cursor_x := min ((e.buffer.getD y []).length) e.cursor_x }
      else if e.scroll_y > 0 then { e with scroll_y := e.scroll_y - 1 }
      else e
    else if c = 'j' then
      if e.cursor_y + 1 < e.buffer.length then
        let y := e.cursor_y + 1
        { e with cursor_y := y,
                 cursor_x := min ((e.buffer.getD y []).length) e.cursor_x }
      else if e.cursor_y < e.buffer.length ∧ e.cursor_y ≥ h then
        { e with scroll_y := e.scroll_y + 1 }
      else e
    else e
  | _ => e

/-- `Editor::handle_insert_mode`. -/
def handle_insert_mode (w h : Nat) (e : Editor) (k : Key) : Editor :=
  match k with
  | Key.esc => { e with mode := Mode.normal }
  | Key.char c =>
    if c = '\n' then
      let line := e.buffer.getD e.cursor_y []
      let remaining := line.drop e.cursor_x
      let buf := insertIdxAt (e.buffer.set e.cursor_y (line.take e.cursor_x))
        (e.cursor_y + 1) remaining
      let e1 := { e with buffer := buf, cursor_y := e.cursor_y + 1, cursor_x := 0 }
      if e1.cursor_y ≥ h - 2 then { e1 with scroll_y := e1.scroll_y + 1 } else e1
    else
      let line := e.buffer.getD e.cursor_y []
      let e1 := { e with buffer := e.buffer.set e.cursor_y (insertIdxAt line e.cursor_x c),
                         cursor_x := e.cursor_x + 1 }
      if e1.cursor_x ≥ w then { e1 with scroll_x := e1.scroll_x + 1 } else e1
  | Key.backspace =>
    if e.cursor_x > 0 then
      let e1 := if e.cursor_x ≤ e.scroll_x + 1 ∧ e.scroll_x ≠ 0 then
          { e with scroll_x := e.scroll_x - 1 }
        else e
      let x := e1.cursor_x - 1
      { e1 with cursor_x := x,
                buffer := e1.buffer.set e1.cursor_y
                  ((e1.buffer.getD e1.cursor_y []).eraseIdx x) }
    else if e.cursor_y > 0 then
      let prevLen := (e.buffer.getD (e.cursor_y - 1) []).length
      let current := e.buffer.getD e.cursor_y []
      let buf := e.buffer.eraseIdx e.cursor_y
      let y := e.cursor_y - 1
      { e with buffer := buf.set y ((buf.getD y []) ++ current),
               cursor_y := y, cursor_x := prevLen }
    else e
  | _ => e

/-- `Editor::handle_command_mode`. -/
def handle_command_mode (fs : FileSys) (e : Editor) (k : Key) :
    Editor × List Effect :=
  match k with
  | Key.esc => ({ e with mode := Mode.normal }, [])
  | Key.char c =>
    if c = '\n' then execute_command fs e
    else ({ e with command_buffer := e.command_buffer ++ [c] }, [])
  | Key.backspace => ({ e with command_buffer := e.command_buffer.dropLast }, [])
  | _ => (e, [])

/-- `Editor::process_key`. -/
def process_key (fs : FileSys) (w h : Nat) (e : Editor) (k : Key) :
    Editor × List Effect :=
  match e.mode with
  | Mode.normal => (handle_normal_mode w h e k, [])
  | Mode.insert => (handle_insert_mode w h e k, [])
  | Mode.command => handle_command_mode fs e k

/-- Run a sequence of key events, discarding the emitted effects. -/
def stepKeys (fs : FileSys) (w h : Nat) (ks : List Key) (e : Editor) : Editor :=
  ks.foldl (fun acc k => (process_key fs w h acc k).1) e

/-- Editor startup (`main`): load the optional filename argument. -/
def startup (fs : FileSys) (arg : Option (List Char)) : Editor :=
  match arg with
  | some f => load_file fs f Editor.init
  | none => Editor.init

/-- `Editor::draw`, as a drawing plan: the visible line slices and the
0-based screen position of the cursor.  The Rust code computes
`cursor_x - scroll_x` and `cursor_y - scroll_y` in `usize` and slices
`buffer[scroll_y .. end_line]`; `none` models the panics those operations
raise when the subtraction underflows or the slice range is invalid. -/
def draw (w h : Nat) (e : Editor) : Option (List (List Char) × Nat × Nat) :=
  let startLine := e.scroll_y
  let endLine := min (e.scroll_y + h - 2) e.buffer.length
  if startLine ≤ endLine ∧ e.scroll_x ≤ e.cursor_x ∧ e.scroll_y ≤ e.cursor_y then
    some (((e.buffer.drop startLine).take (endLine - startLine)).map
            (fun line =>
              if e.scroll_x < line.length then
                (line.take (min (e.scroll_x + w) line.length)).drop e.scroll_x
              else []),
          e.cursor_x - e.scroll_x, e.cursor_y - e.scroll_y)
  else none

/-- The empty file system: every read fails. -/
def fsNone : FileSys := fun _ => none

/-- A file system holding one empty (zero-byte) file named `f`. -/
def fsEmptyFile : FileSys := fun s => if s = ['f'] then some [] else none

end Mshed

namespace Mshed

/-! ### Helper lemmas about line splitting and trimming -/

theorem splitNl_ne_nil (s : List Char) : splitNl s ≠ [] := by
  induction s with
  | nil => simp [splitNl]
  | cons c cs ih =>
    simp only [splitNl]
    split
    · simp
    · cases h : splitNl cs with
      | nil => exact absurd h ih
      | cons a t => simp [h]

theorem not_nl_mem_splitNl (s : List Char) : ∀ l ∈ splitNl s, '\n' ∉ l := by
  induction s with
  | nil =>
    intro l hl
    simp only [splitNl, List.mem_singleton] at hl
    subst hl
    simp
  | cons c cs ih =>
    intro l hl
    simp only [splitNl] at hl
    by_cases hc : c = '\n'
    · rw [if_pos hc] at hl
      rcases List.mem_cons.mp hl with rfl | hl'
      · simp
      · exact ih l hl'
    · rw [if_neg hc] at hl
      cases h : splitNl cs with
      | nil => exact absurd h (splitNl_ne_nil cs)
      | cons a t =>
        rw [h, List.modifyHead_cons] at hl
        rcases List.mem_cons.mp hl with rfl | hl'
        · intro hmem
          rcases List.mem_cons.mp hmem with h1 | h2
          · exact hc h1.symm
          · exact ih a (h ▸ List.mem_cons_self a t) h2
        · exact ih l (h ▸ List.mem_cons_of_mem a hl')

theorem splitNl_append (l s : List Char) (h : '\n' ∉ l) :
    splitNl (l ++ s) = (splitNl s).modifyHead (fun x => l ++ x) := by
  induction l with
  | nil =>
    cases hs : splitNl s <;> simp [hs, List.modifyHead]
  | cons c l ih =>
    have hc : ¬(c = '\n') := fun hcc => h (hcc ▸ List.mem_cons_self c l)
    have hl : '\n' ∉ l := fun hm => h (List.mem_cons_of_mem c hm)
    rw [List.cons_append]
    rw [show splitNl (c :: (l ++ s)) =
        List.modifyHead (fun x => c :: x) (splitNl (l ++ s)) from by
      rw [splitNl, if_neg hc]]
    rw [ih hl, List.modifyHead_modifyHead]
    rfl

theorem splitNl_to_text (B : List (List Char)) (hB : B ≠ [])
    (h : ∀ l ∈ B, '\n' ∉ l) : splitNl (to_text B) = B := by
  induction B with
  | nil => exact absurd rfl hB
  | cons l B ih =>
    cases B with
    | nil =>
      show splitNl (to_text [l]) = [l]
      have hl : '\n' ∉ l := h l (List.mem_cons_self l [])
      calc splitNl (to_text [l]) = splitNl (l ++ []) := by
            rw [to_text, List.append_nil]
        _ = (splitNl []).modifyHead (fun x => l ++ x) := splitNl_append l [] hl
        _ = [l] := by simp [splitNl, List.modifyHead]
    | cons m B' =>
      have hl : '\n' ∉ l := h l (List.mem_cons_self l _)
      have hrest : ∀ x ∈ m :: B', '\n' ∉ x := fun x hx =>
        h x (List.mem_cons_of_mem l hx)
      have hstep : to_text (l :: m :: B') = l ++ '\n' :: to_text (m :: B') := rfl
      rw [hstep, splitNl_append l _ hl]
      have h1 : splitNl ('\n' :: to_text (m :: B')) =
          [] :: splitNl (to_text (m :: B')) := by simp [splitNl]
      rw [h1, List.modifyHead_cons, ih (by simp) hrest, List.append_nil]

theorem not_nl_mem_rustLines (s : List Char) : ∀ l ∈ rustLines s, '\n' ∉ l := by
  intro l hl
  rw [rustLines] at hl
  rcases List.mem_append.mp hl with hmap | hlast
  · obtain ⟨seg, hseg, rfl⟩ := List.mem_map.mp hmap
    have hseg' : seg ∈ splitNl s := List.dropLast_subset _ hseg
    have hnn : '\n' ∉ seg := not_nl_mem_splitNl s seg hseg'
    rw [stripCR]
    split
    · exact fun hm => hnn (List.dropLast_subset _ hm)
    · exact hnn
  · cases hq : (splitNl s).getLast? with
    | none => rw [hq] at hlast; simp [lastPart] at hlast
    | some q =>
      rw [hq] at hlast
      have hqmem : q ∈ splitNl s := List.mem_of_getLast?_eq_some hq
      cases q with
      | nil => simp [lastPart] at hlast
      | cons a t =>
        have : l = a :: t := by simpa [lastPart] using hlast
        subst this
        exact not_nl_mem_splitNl s _ hqmem

theorem trim_cons_nonws (c : Char) (l : List Char) (hc : wsb c = false) :
    trim (c :: l) = c :: rtrim l := by
  rw [trim, List.dropWhile_cons, hc]
  simp only [Bool.false_eq_true, if_false, rtrim, List.reverse_cons,
    List.dropWhile_append]
  by_cases h : (List.dropWhile wsb l.reverse).isEmpty
  · rw [if_pos h]
    rw [List.isEmpty_iff] at h
    simp [List.dropWhile_cons, hc, h]
  · rw [if_neg h]
    simp

end Mshed

namespace Mshed

theorem lastPart_some_of_ne_nil (q : List Char) (hq : q ≠ []) :
    lastPart (some q) = [q] := by
  cases q with
  | nil => exact absurd rfl hq
  | cons a t => rfl

theorem merge_buffer_eq (b : List (List Char)) (k : Nat) (hlen : k + 1 < b.length) :
    (b.eraseIdx (k + 1)).set k
        (((b.eraseIdx (k + 1)).getD k []) ++ (b.getD (k + 1) [])) =
      b.take k ++ ((b.getD k []) ++ (b.getD (k + 1) [])) :: b.drop (k + 2) := by
  have h1 : b.eraseIdx (k + 1) = b.take (k + 1) ++ b.drop (k + 2) :=
    List.eraseIdx_eq_take_drop_succ ..
  have hlt : k < (b.take (k + 1)).length := by
    rw [List.length_take]
    omega
  have h2 : (b.take (k + 1) ++ b.drop (k + 2)).getD k [] = b.getD k [] := by
    rw [List.getD_eq_getElem?_getD, List.getElem?_append_left hlt,
      List.getElem?_take_of_lt (Nat.lt_succ_self k), ← List.getD_eq_getElem?_getD]
  rw [h1, h2, List.set_append_left _ _ hlt]
  have hk' : k < b.length := by omega
  have h3 : (b.take (k + 1)).set k ((b.getD k []) ++ (b.getD (k + 1) [])) =
      b.take k ++ [(b.getD k []) ++ (b.getD (k + 1) [])] := by
    rw [List.take_succ, List.getElem?_eq_getElem hk']
    have hlen' : (b.take k).length = k := by
      rw [List.length_take]
      omega
    rw [List.set_append_right _ _ (by omega : (b.take k).length ≤ k)]
    simp [hlen']
  rw [h3]
  simp

end Mshed

namespace Mshed

/-! ### Claim theorems -/

/-- C1 (code bug): loading an existing zero-byte file at startup leaves the
buffer with zero lines — `contents.lines()` of the empty string yields no
lines — violating the "at least one (possibly empty) line" invariant. -/
theorem c1_empty_file_breaks_min_one_line :
    (startup fsEmptyFile (some ['f'])).buffer = [] := by decide

/-- Key sequence reaching a state where the cursor row index is out of
range: enter Insert, split the line, return to Normal, then execute
`e x` for a missing file `x` (which resets the buffer to one line but
leaves the cursor on row 1). -/
def c2keys : List Key :=
  [Key.char 'i', Key.char '\n', Key.esc, Key.char ':',
   Key.char 'e', Key.char ' ', Key.char 'x', Key.char '\n']

/-- C2 (code bug): after the reachable key sequence `c2keys` the buffer has
exactly one line but the cursor row is 1, so `cursor_y < len(buffer)`
fails — `load_file` never clamps or resets the cursor. -/
theorem c2_stale_cursor_after_e_command :
    (stepKeys fsNone 80 24 c2keys Editor.init).cursor_y = 1 ∧
    (stepKeys fsNone 80 24 c2keys Editor.init).buffer.length = 1 := by decide

/-- Key sequence reaching a state with `scroll_x > cursor_x` on a terminal
of width 4: type five characters in Insert mode (panning the viewport
right twice), then move left four times with `h` (which never pans the
viewport back). -/
def c3keys : List Key :=
  [Key.char 'i', Key.char 'a', Key.char 'a', Key.char 'a', Key.char 'a',
   Key.char 'a', Key.esc, Key.char 'h', Key.char 'h', Key.char 'h', Key.char 'h']

/-- C3 (code bug): after the reachable key sequence `c3keys` the horizontal
scroll offset (2) exceeds the cursor column (1), violating
`scroll_x ≤ cursor_x` — the `h` handler only decrements `cursor_x`. -/
theorem c3_h_key_breaks_scroll_invariant :
    (stepKeys fsNone 4 24 c3keys Editor.init).cursor_x <
    (stepKeys fsNone 4 24 c3keys Editor.init).scroll_x := by decide

/-- The same reachable key sequence as for the scroll-invariant violation,
duplicated so the renderer claim stands on its own. -/
def c4keys : List Key :=
  [Key.char 'i', Key.char 'a', Key.char 'a', Key.char 'a', Key.char 'a',
   Key.char 'a', Key.esc, Key.char 'h', Key.char 'h', Key.char 'h', Key.char 'h']

/-- C4 (code bug): at the reachable state after `c4keys` the renderer's
screen-position computation `cursor_x - scroll_x` underflows (the draw
plan is `none`, modelling the panicking `usize` subtraction), so the
computation does fail on a reachable state. -/
theorem c4_draw_fails_on_reachable_state :
    draw 4 24 (stepKeys fsNone 4 24 c4keys Editor.init) = none := by decide

/-- C5 (counterexample): for the file contents consisting of a single
newline, the loaded buffer is one empty line, but saving writes the empty
string and reloading yields zero lines — the line sequence is not
preserved by the round trip. -/
theorem c5_round_trip_cex :
    rustLines (to_text (rustLines ['\n'])) ≠ rustLines ['\n'] := by decide

/-- C5 (amended): the load/save/reload round trip preserves the line
sequence provided the loaded sequence does not end in an empty line (a
sole trailing empty line is otherwise dropped) and no line before the
last ends in a carriage return (such a line would otherwise fuse with the
inserted newline into a CR-LF terminator). -/
theorem c5_round_trip_amended (c : List Char)
    (h1 : (rustLines c).getLast? ≠ some [])
    (h2 : ∀ l ∈ (rustLines c).dropLast, l.getLast? ≠ some '\r') :
    rustLines (to_text (rustLines c)) = rustLines c := by
  by_cases hB : rustLines c = []
  · rw [hB]
    decide
  · have hnl : ∀ l ∈ rustLines c, '\n' ∉ l := not_nl_mem_rustLines c
    have hsplit : splitNl (to_text (rustLines c)) = rustLines c :=
      splitNl_to_text (rustLines c) hB hnl
    rw [rustLines, hsplit]
    have hmap : (rustLines c).dropLast.map stripCR = (rustLines c).dropLast := by
      have hcg : (rustLines c).dropLast.map stripCR =
          (rustLines c).dropLast.map id :=
        List.map_congr_left fun l hl => by rw [stripCR, if_neg (h2 l hl)]; rfl
      rw [hcg, List.map_id]
    have hlast : (rustLines c).getLast? = some ((rustLines c).getLast hB) :=
      List.getLast?_eq_getLast _ hB
    have hne : (rustLines c).getLast hB ≠ [] := by
      intro hcon
      exact h1 (hcon ▸ hlast)
    rw [hmap, hlast, lastPart_some_of_ne_nil _ hne,
      List.dropLast_append_getLast hB]

/-- C5 witness input: the two-line contents used to instantiate the
amended round-trip theorem. -/
def c5input : List Char := ['h', 'i', '\n', 't']

/-- C5 (witness): the amended round-trip theorem applied to the concrete
contents `hi` newline `t`. -/
theorem c5_round_trip_amended_witness :
    rustLines (to_text (rustLines c5input)) = rustLines c5input :=
  c5_round_trip_amended c5input (by decide) (by decide)

/-- C10: `load_file` changes only the buffer and the filename; the cursor,
the scroll offsets, the mode and the command/status text are untouched in
both the successful-read and the failed-read branch. -/
theorem c10_load_file_frame (fs : FileSys) (f : List Char) (e : Editor) :
    (load_file fs f e).cursor_x = e.cursor_x ∧
    (load_file fs f e).cursor_y = e.cursor_y ∧
    (load_file fs f e).scroll_x = e.scroll_x ∧
    (load_file fs f e).scroll_y = e.scroll_y ∧
    (load_file fs f e).mode = e.mode ∧
    (load_file fs f e).command_buffer = e.command_buffer := by
  cases hfs : fs f <;> simp [load_file, hfs]

end Mshed

namespace Mshed

/-- C6: submitting the command `w` with no filename ever set keeps the
buffer, filename, cursor and scroll, issues no file write, sets the
status text to exactly the no-file error message, and returns the mode to
Normal. -/
theorem c6_w_without_filename (fs : FileSys) (e : Editor)
    (hf : e.filename = none) (hcb : e.command_buffer = ['w']) :
    execute_command fs e =
      ({ e with mode := Mode.normal, command_buffer := noFileMsg }, []) := by
  simp +decide [execute_command, hcb, save_file, hf, display_message]

/-- C6 witness input: Command mode with the accumulated command `w` and no
filename. -/
def c6editor : Editor :=
  { Editor.init with mode := Mode.command, command_buffer := ['w'] }

/-- C6 (witness): the no-filename `w` theorem applied to the concrete
editor `c6editor`. -/
theorem c6_w_without_filename_witness :
    execute_command fsNone c6editor =
      ({ c6editor with mode := Mode.normal, command_buffer := noFileMsg }, []) :=
  c6_w_without_filename fsNone c6editor rfl rfl

/-- C7: when reading `<path>` fails, the buffer becomes exactly one empty
line and the filename is still set to `<path>` — both through the
`e <path>` command (first conjunct) and through a direct `load_file` call
as at startup (second conjunct). -/
theorem c7_load_failure (fs : FileSys) (p : List Char) (e : Editor)
    (hfs : fs (trim p) = none) (hcb : e.command_buffer = 'e' :: ' ' :: p) :
    ((execute_command fs e).1.buffer = [[]] ∧
     (execute_command fs e).1.filename = some (trim p)) ∧
    ((load_file fs (trim p) e).buffer = [[]] ∧
     (load_file fs (trim p) e).filename = some (trim p)) := by
  have htrim : trim ('e' :: ' ' :: p) = 'e' :: rtrim (' ' :: p) :=
    trim_cons_nonws 'e' (' ' :: p) (by decide)
  constructor
  · simp +decide [execute_command, hcb, htrim, List.isPrefixOf, load_file, hfs]
  · simp [load_file, hfs]

/-- C7 witness input: Command mode with the accumulated command `e x`. -/
def c7editor : Editor :=
  { Editor.init with mode := Mode.command, command_buffer := ['e', ' ', 'x'] }

/-- C7 (witness): the load-failure theorem applied to the concrete editor
`c7editor` over the empty file system. -/
theorem c7_load_failure_witness :
    ((execute_command fsNone c7editor).1.buffer = [[]] ∧
     (execute_command fsNone c7editor).1.filename = some (trim ['x'])) ∧
    ((load_file fsNone (trim ['x']) c7editor).buffer = [[]] ∧
     (load_file fsNone (trim ['x']) c7editor).filename = some (trim ['x'])) :=
  c7_load_failure fsNone ['x'] c7editor rfl rfl

/-- C8 counterexample input: Command mode holding the raw command string
consisting of a space, `w`, a space and `a`; its trimmed form is `w a`. -/
def c8editor : Editor :=
  { Editor.init with mode := Mode.command, command_buffer := [' ', 'w', ' ', 'a'] }

/-- C8 (counterexample): the submitted command trims to `w a`, yet the
interpreter neither sets the filename nor saves — the `w <path>` guard
tests the untrimmed string, and a leading space sends the command to the
catch-all arm. -/
theorem c8_trimmed_w_path_not_dispatched :
    trim c8editor.command_buffer = ['w', ' ', 'a'] ∧
    (execute_command fsNone c8editor).1.filename = none ∧
    (execute_command fsNone c8editor).2 = [] ∧
    (execute_command fsNone c8editor).1.mode = Mode.normal := by decide

/-- C8 (amended): for every submitted command string whose RAW form starts
with the two characters `w` and space (rather than whose trimmed form is
`w <path>`), with non-empty trimmed remainder `<path>`, the interpreter
sets the filename to `<path>`, saves the buffer to that path, and returns
the mode to Normal. -/
theorem c8_w_path_amended (fs : FileSys) (e : Editor) (rest : List Char)
    (hcb : e.command_buffer = 'w' :: ' ' :: rest) (_hne : trim rest ≠ []) :
    (execute_command fs e).1.filename = some (trim rest) ∧
    (execute_command fs e).2 = [Effect.write (trim rest) (to_text e.buffer)] ∧
    (execute_command fs e).1.mode = Mode.normal := by
  have htrim : trim ('w' :: ' ' :: rest) = 'w' :: rtrim (' ' :: rest) :=
    trim_cons_nonws 'w' (' ' :: rest) (by decide)
  simp +decide [execute_command, hcb, htrim, List.isPrefixOf, save_file]

/-- C8 witness input: Command mode with the accumulated command `w f`. -/
def c8save : Editor :=
  { Editor.init with mode := Mode.command, command_buffer := ['w', ' ', 'f'] }

/-- C8 (witness): the amended `w <path>` theorem applied to the concrete
editor `c8save`. -/
theorem c8_w_path_amended_witness :
    (execute_command fsNone c8save).1.filename = some (trim ['f']) ∧
    (execute_command fsNone c8save).2 =
      [Effect.write (trim ['f']) (to_text c8save.buffer)] ∧
    (execute_command fsNone c8save).1.mode = Mode.normal :=
  c8_w_path_amended fsNone c8save ['f'] rfl (by decide)

/-- C9: in Insert mode, Backspace at column 0 of a non-first (in-range)
line removes the current line, appends its whole content to the previous
line, moves the cursor to the previous line's original length on the
previous row, and leaves the rest of the buffer — and every other field —
unchanged. -/
theorem c9_backspace_merges_lines (fs : FileSys) (w h : Nat) (e : Editor)
    (hm : e.mode = Mode.insert) (hx : e.cursor_x = 0) (hy : 0 < e.cursor_y)
    (hlen : e.cursor_y < e.buffer.length) :
    (process_key fs w h e Key.backspace).1.buffer =
      e.buffer.take (e.cursor_y - 1) ++
        ((e.buffer.getD (e.cursor_y - 1) []) ++ (e.buffer.getD e.cursor_y [])) ::
        e.buffer.drop (e.cursor_y + 1) ∧
    (process_key fs w h e Key.backspace).1.cursor_x =
      (e.buffer.getD (e.cursor_y - 1) []).length ∧
    (process_key fs w h e Key.backspace).1.cursor_y = e.cursor_y - 1 ∧
    (process_key fs w h e Key.backspace).1.mode = e.mode ∧
    (process_key fs w h e Key.backspace).1.scroll_x = e.scroll_x ∧
    (process_key fs w h e Key.backspace).1.scroll_y = e.scroll_y ∧
    (process_key fs w h e Key.backspace).1.command_buffer = e.command_buffer ∧
    (process_key fs w h e Key.backspace).1.filename = e.filename := by
  obtain ⟨k, hk⟩ : ∃ k, e.cursor_y = k + 1 :=
    ⟨e.cursor_y - 1, (Nat.succ_pred_eq_of_pos hy).symm⟩
  have hpk : (process_key fs w h e Key.backspace).1 =
      handle_insert_mode w h e Key.backspace := by
    simp [process_key, hm]
  have hnotpos : ¬ e.cursor_x > 0 := by omega
  rw [hpk, handle_insert_mode, if_neg hnotpos, if_pos hy]
  have hbuf := merge_buffer_eq e.buffer k (hk ▸ hlen)
  rw [hk]
  exact ⟨by simpa using hbuf, rfl, rfl, rfl, rfl, rfl, rfl, rfl⟩

end Mshed

namespace Mshed

/-- C9 witness input: Insert mode at column 0 of the second of two lines
`ab` and `c`. -/
def c9editor : Editor :=
  { Editor.init with mode := Mode.insert, cursor_x := 0, cursor_y := 1,
                     buffer := [['a', 'b'], ['c']] }

/-- C9 (witness): the Backspace line-merge theorem applied to the concrete
editor `c9editor`. -/
theorem c9_backspace_merges_lines_witness :
    (process_key fsNone 80 24 c9editor Key.backspace).1.buffer =
      c9editor.buffer.take (c9editor.cursor_y - 1) ++
        ((c9editor.buffer.getD (c9editor.cursor_y - 1) []) ++
          (c9editor.buffer.getD c9editor.cursor_y [])) ::
        c9editor.buffer.drop (c9editor.cursor_y + 1) ∧
    (process_key fsNone 80 24 c9editor Key.backspace).1.cursor_x =
      (c9editor.buffer.getD (c9editor.cursor_y - 1) []).length ∧
    (process_key fsNone 80 24 c9editor Key.backspace).1.cursor_y =
      c9editor.cursor_y - 1 ∧
    (process_key fsNone 80 24 c9editor Key.backspace).1.mode = c9editor.mode ∧
    (process_key fsNone 80 24 c9editor Key.backspace).1.scroll_x =
      c9editor.scroll_x ∧
    (process_key fsNone 80 24 c9editor Key.backspace).1.scroll_y =
      c9editor.scroll_y ∧
    (process_key fsNone 80 24 c9editor Key.backspace).1.command_buffer =
      c9editor.command_buffer ∧
    (process_key fsNone 80 24 c9editor Key.backspace).1.filename =
      c9editor.filename :=
  c9_backspace_merges_lines fsNone 80 24 c9editor rfl rfl
    (by decide) (by decide)

end Mshed
